import Mathlib

/-!
Verification development for the `vast` package: a document model and
normalization engine for IAB VAST XML ad responses.

The Go sources are shallowly embedded here:
* Go strings are Lean `String`s; the byte-level operations from
  `strings.Replace` / `strings.TrimSpace` are modelled on `List Char`
  (every pattern involved is ASCII, so byte and rune granularity agree).
* Go slices are Lean `List`s.  The in-place filter idiom
  `out := s[:0]; for _, m := range s { ... out = append(out, m) }`
  shares backing storage between `out` and `s`; reads of `s[i]` observe the
  first `min(i, len out)` appended values.  This aliasing is modelled
  explicitly by `goRangeAppend`.
* Go `int` is modelled as unbounded `Int` and `float64` arithmetic in
  `FilterSize` is modelled exactly over `ℚ` (no overflow / rounding model).
* Methods returning `error` while mutating their receiver are modelled as
  `Except String α` returning the updated value; a Go runtime panic
  (nil dereference / index out of range) is the `panics` constructor of
  `GoResult`.
* XML is modelled as a tree of `XNode`s; the `innerxml` capture of an
  element body is the body's node list.
-/

namespace VastSpec

/-! ## Go string primitives -/

/-- Fuel-indexed core of `strings.Replace(s, pat, "", -1)`: scan left to
right, remove every non-overlapping occurrence of `pat`, continuing after
each removed occurrence.  The fuel argument only makes the recursion
structural; `repAll` below always supplies enough fuel. -/
def repAllFuel (pat : List Char) : Nat → List Char → List Char
  | 0, s => s
  | _ + 1, [] => []
  | n + 1, c :: cs =>
    if pat ≠ [] ∧ pat.isPrefixOf (c :: cs) then
      repAllFuel pat n ((c :: cs).drop pat.length)
    else
      c :: repAllFuel pat n cs

/-- `strings.Replace(s, pat, "", -1)` for a non-empty `pat` (the only way
the source uses it; Go treats an empty pattern specially, which we do not
model). -/
def repAll (pat s : List Char) : List Char :=
  repAllFuel pat s.length s

/-- Whether `pat` occurs as a contiguous sublist of `s`. -/
def hasSub (pat : List Char) : List Char → Bool
  | [] => pat.isPrefixOf []
  | c :: cs => pat.isPrefixOf (c :: cs) || hasSub pat cs

theorem repAllFuel_congr (pat : List Char) :
    ∀ (n m : Nat) (s : List Char), s.length ≤ n → s.length ≤ m →
      repAllFuel pat n s = repAllFuel pat m s := by
  intro n
  induction n with
  | zero =>
    intro m s hs _
    have : s = [] := List.length_eq_zero.mp (Nat.le_zero.mp hs)
    subst this
    cases m <;> rfl
  | succ n ih =>
    intro m s hs hm
    cases s with
    | nil => cases m <;> rfl
    | cons c cs =>
      cases m with
      | zero => exact absurd hm (by simp)
      | succ m =>
        by_cases hcond : pat ≠ [] ∧ pat.isPrefixOf (c :: cs)
        · have hlen : ((c :: cs).drop pat.length).length ≤ n := by
            have hp : 1 ≤ pat.length := by
              cases pat with
              | nil => exact absurd rfl hcond.1
              | cons p ps => simp
            have : ((c :: cs).drop pat.length).length = (c :: cs).length - pat.length := by
              simp
            omega
          have hlenm : ((c :: cs).drop pat.length).length ≤ m := by
            have hp : 1 ≤ pat.length := by
              cases pat with
              | nil => exact absurd rfl hcond.1
              | cons p ps => simp
            have : ((c :: cs).drop pat.length).length = (c :: cs).length - pat.length := by
              simp
            omega
          simp only [repAllFuel, if_pos hcond]
          exact ih m _ hlen hlenm
        · simp only [repAllFuel, if_neg hcond]
          have h1 : cs.length ≤ n := by simpa using hs
          have h2 : cs.length ≤ m := by simpa using hm
          rw [ih m cs h1 h2]

theorem repAll_nil (pat : List Char) : repAll pat [] = [] := rfl

theorem repAll_cons_pos (pat : List Char) (c : Char) (cs : List Char)
    (hne : pat ≠ []) (hpre : pat.isPrefixOf (c :: cs)) :
    repAll pat (c :: cs) = repAll pat ((c :: cs).drop pat.length) := by
  have hp : 1 ≤ pat.length := by
    cases pat with
    | nil => exact absurd rfl hne
    | cons p ps => simp
  have hlen : ((c :: cs).drop pat.length).length ≤ cs.length := by
    simp
    omega
  unfold repAll
  simp only [List.length_cons, repAllFuel, if_pos (And.intro hne hpre)]
  exact repAllFuel_congr pat cs.length _ _ hlen (le_refl _)

theorem repAll_cons_neg (pat : List Char) (c : Char) (cs : List Char)
    (h : ¬(pat ≠ [] ∧ pat.isPrefixOf (c :: cs))) :
    repAll pat (c :: cs) = c :: repAll pat cs := by
  unfold repAll
  simp only [List.length_cons, repAllFuel, if_neg h]

/-- If the pattern never occurs in `s`, replacement leaves `s` unchanged. -/
theorem repAll_of_hasSub_false (pat : List Char) :
    ∀ s : List Char, hasSub pat s = false → repAll pat s = s := by
  intro s
  induction s with
  | nil => intro _; rfl
  | cons c cs ih =>
    intro h
    simp only [hasSub, Bool.or_eq_false_iff] at h
    rw [repAll_cons_neg pat c cs (by simp [h.1]), ih h.2]

/-- Bridge between the executable `List.isPrefixOf` and the `<+:` relation. -/
theorem isPrefixOf_true_iff (l1 l2 : List Char) :
    l1.isPrefixOf l2 = true ↔ l1 <+: l2 :=
  List.isPrefixOf_iff_prefix

theorem repAll_append_self (pat b : List Char) (hne : pat ≠ []) :
    repAll pat (pat ++ b) = repAll pat b := by
  cases pat with
  | nil => exact absurd rfl hne
  | cons p ps =>
    have hpre : (p :: ps).isPrefixOf (p :: (ps ++ b)) = true :=
      (isPrefixOf_true_iff _ _).mpr ⟨b, rfl⟩
    have hstep := repAll_cons_pos (p :: ps) p (ps ++ b) hne hpre
    have hdrop : (p :: (ps ++ b)).drop (p :: ps).length = b := by
      simp
    rw [List.cons_append, hstep, hdrop]

/-- `ClearOf P pat` states that no occurrence of `pat` can start inside `P`,
whatever string follows `P`: every non-empty suffix of `P` diverges from
`pat` within the shorter of the two. -/
def ClearOf (P pat : List Char) : Bool :=
  P.tails.all fun b => b.isEmpty || (!(pat.isPrefixOf b) && !(b.isPrefixOf pat))

theorem isPrefixOf_append_false (pat b r : List Char)
    (h1 : pat.isPrefixOf b = false) (h2 : b.isPrefixOf pat = false) :
    pat.isPrefixOf (b ++ r) = false := by
  by_contra h
  have htrue : pat.isPrefixOf (b ++ r) = true := by
    revert h
    cases pat.isPrefixOf (b ++ r) <;> simp
  have hp : pat <+: b ++ r := (isPrefixOf_true_iff _ _).mp htrue
  have hb : b <+: b ++ r := List.prefix_append b r
  rcases List.prefix_or_prefix_of_prefix hp hb with hc | hc
  · rw [(isPrefixOf_true_iff _ _).mpr hc] at h1
    exact Bool.noConfusion h1
  · rw [(isPrefixOf_true_iff _ _).mpr hc] at h2
    exact Bool.noConfusion h2

/-- Replacement commutes with prepending a block `P` in which no occurrence
of the pattern can start. -/
theorem repAll_append_of_clear (pat : List Char) :
    ∀ P r : List Char, ClearOf P pat = true →
      repAll pat (P ++ r) = P ++ repAll pat r := by
  intro P
  induction P with
  | nil => intro r _; rfl
  | cons c P2 ih =>
    intro r hclear
    simp only [ClearOf, List.tails_cons, List.all_cons, List.isEmpty_cons,
      Bool.false_or, Bool.and_eq_true, Bool.not_eq_true'] at hclear
    have hhead := hclear.1
    have htail : ClearOf P2 pat = true := by
      simp only [ClearOf]
      exact hclear.2
    have hfalse : pat.isPrefixOf ((c :: P2) ++ r) = false :=
      isPrefixOf_append_false pat (c :: P2) r hhead.1 hhead.2
    have hcond : ¬(pat ≠ [] ∧ pat.isPrefixOf (c :: (P2 ++ r))) := by
      intro hco
      rw [show (c :: (P2 ++ r)) = (c :: P2) ++ r from rfl, hfalse] at hco
      exact Bool.false_ne_true hco.2
    rw [List.cons_append, repAll_cons_neg pat c (P2 ++ r) hcond, ih r htail]
    rfl

/-! ## `SecureUrl` (Go function `SecureUrl(url string, secure bool) string`)

The Go source removes every occurrence of `"http:"`, `"https:"` and `"//"`,
prepends the requested scheme, and finally removes every newline, tab and
space character. -/

def httpPat : List Char := ['h', 't', 't', 'p', ':']

def httpsPat : List Char := ['h', 't', 't', 'p', 's', ':']

def slashPat : List Char := ['/', '/']

def nlPat : List Char := ['\n']

def tabPat : List Char := ['\t']

def spacePat : List Char := [' ']

def httpScheme : List Char := ['h', 't', 't', 'p', ':', '/', '/']

def httpsScheme : List Char := ['h', 't', 't', 'p', 's', ':', '/', '/']

def secureUrlList (u : List Char) (secure : Bool) : List Char :=
  let u1 := repAll httpPat u
  let u2 := repAll httpsPat u1
  let u3 := repAll slashPat u2
  let u4 := (if secure then httpsScheme else httpScheme) ++ u3
  repAll spacePat (repAll tabPat (repAll nlPat u4))

def SecureUrl (url : String) (secure : Bool) : String :=
  ⟨secureUrlList url.data secure⟩

/-- The scheme-free part of `SecureUrl`'s output: scheme occurrences and
`//` removed, then whitespace removed. -/
def urlTail (u : List Char) : List Char :=
  repAll spacePat (repAll tabPat (repAll nlPat
    (repAll slashPat (repAll httpsPat (repAll httpPat u)))))

theorem secureUrlList_eq_scheme_append (u : List Char) (s : Bool) :
    secureUrlList u s = (if s then httpsScheme else httpScheme) ++ urlTail u := by
  cases s with
  | false =>
    simp only [secureUrlList, urlTail, Bool.false_eq_true, if_false]
    rw [repAll_append_of_clear nlPat httpScheme _ (by decide),
      repAll_append_of_clear tabPat httpScheme _ (by decide),
      repAll_append_of_clear spacePat httpScheme _ (by decide)]
  | true =>
    simp only [secureUrlList, urlTail, if_true]
    rw [repAll_append_of_clear nlPat httpsScheme _ (by decide),
      repAll_append_of_clear tabPat httpsScheme _ (by decide),
      repAll_append_of_clear spacePat httpsScheme _ (by decide)]

/-- Processing a scheme-prefixed string whose tail is free of scheme / `//`
/ whitespace substrings reproduces the tail exactly. -/
theorem urlTail_scheme_append (t : List Char) (s : Bool)
    (h1 : hasSub httpPat t = false) (h2 : hasSub httpsPat t = false)
    (h3 : hasSub slashPat t = false) (h4 : hasSub nlPat t = false)
    (h5 : hasSub tabPat t = false) (h6 : hasSub spacePat t = false) :
    urlTail ((if s then httpsScheme else httpScheme) ++ t) = t := by
  cases s with
  | true =>
    have e1 : repAll httpPat (httpsScheme ++ t) = httpsScheme ++ t := by
      rw [repAll_append_of_clear httpPat httpsScheme t (by decide),
        repAll_of_hasSub_false httpPat t h1]
    have e2 : repAll httpsPat (httpsScheme ++ t) = slashPat ++ t := by
      rw [show httpsScheme ++ t = httpsPat ++ (slashPat ++ t) from rfl,
        repAll_append_self httpsPat _ (by decide),
        repAll_append_of_clear httpsPat slashPat t (by decide),
        repAll_of_hasSub_false httpsPat t h2]
    have e3 : repAll slashPat (slashPat ++ t) = t := by
      rw [repAll_append_self slashPat t (by decide),
        repAll_of_hasSub_false slashPat t h3]
    simp only [if_true, urlTail]
    rw [e1, e2, e3, repAll_of_hasSub_false nlPat t h4,
      repAll_of_hasSub_false tabPat t h5, repAll_of_hasSub_false spacePat t h6]
  | false =>
    have f1 : repAll httpPat (httpScheme ++ t) = slashPat ++ t := by
      rw [show httpScheme ++ t = httpPat ++ (slashPat ++ t) from rfl,
        repAll_append_self httpPat _ (by decide),
        repAll_append_of_clear httpPat slashPat t (by decide),
        repAll_of_hasSub_false httpPat t h1]
    have f2 : repAll httpsPat (slashPat ++ t) = slashPat ++ t := by
      rw [repAll_append_of_clear httpsPat slashPat t (by decide),
        repAll_of_hasSub_false httpsPat t h2]
    have f3 : repAll slashPat (slashPat ++ t) = t := by
      rw [repAll_append_self slashPat t (by decide),
        repAll_of_hasSub_false slashPat t h3]
    simp only [Bool.false_eq_true, if_false, urlTail]
    rw [f1, f2, f3, repAll_of_hasSub_false nlPat t h4,
      repAll_of_hasSub_false tabPat t h5, repAll_of_hasSub_false spacePat t h6]

theorem SecureUrl_data (u : String) (s : Bool) :
    (SecureUrl u s).data = (if s then httpsScheme else httpScheme) ++ urlTail u.data :=
  secureUrlList_eq_scheme_append u.data s

theorem SecureUrl_idem_of_clean_tail (u : String) (s : Bool)
    (h1 : hasSub httpPat (urlTail u.data) = false)
    (h2 : hasSub httpsPat (urlTail u.data) = false)
    (h3 : hasSub slashPat (urlTail u.data) = false)
    (h4 : hasSub nlPat (urlTail u.data) = false)
    (h5 : hasSub tabPat (urlTail u.data) = false)
    (h6 : hasSub spacePat (urlTail u.data) = false) :
    SecureUrl (SecureUrl u s) s = SecureUrl u s := by
  show (⟨secureUrlList (SecureUrl u s).data s⟩ : String) = SecureUrl u s
  have hd : (SecureUrl u s).data
      = (if s then httpsScheme else httpScheme) ++ urlTail u.data :=
    SecureUrl_data u s
  have : secureUrlList (SecureUrl u s).data s = (SecureUrl u s).data := by
    rw [hd, secureUrlList_eq_scheme_append,
      urlTail_scheme_append (urlTail u.data) s h1 h2 h3 h4 h5 h6]
  rw [this]

/-- Go `strings.TrimSpace` restricted to the Latin-1 white-space runes
(`unicode.IsSpace` additionally accepts rare higher space runes that no
claim exercises). -/
def goIsSpace (c : Char) : Bool :=
  c == ' ' || c == '\t' || c == '\n' || c == '\u000B' || c == '\u000C' ||
    c == '\r' || c == '\u0085' || c == '\u00A0'

def trimSpaceList (s : List Char) : List Char :=
  ((s.dropWhile goIsSpace).reverse.dropWhile goIsSpace).reverse

def TrimSpace (s : String) : String :=
  ⟨trimSpaceList s.data⟩

/-! ## Data model

The VAST entity graph, translated structure by structure from the Go
source.  Go pointers become `Option`, slices become `List`, `int` becomes
`Int`.  `Offset` and `Duration` are declared in repository files that are
not part of the provided sources. -/

/-- Modelled from the spec: the `Offset` type's own file is missing from
the sources; §4.1 describes it as an opaque string-based time value
(absolute `HH:MM:SS[.mmm]` or percentage) that round-trips byte-for-byte. -/
structure Offset where
  raw : String
deriving DecidableEq

/-- Modelled from the spec: the `Duration` type's own file is missing from
the sources; §4.1 describes it as an opaque string-based time value that
round-trips byte-for-byte. -/
structure Duration where
  raw : String
deriving DecidableEq

structure CDATAString where
  CDATA : String
deriving DecidableEq

structure Impression where
  ID : String
  URI : String
deriving DecidableEq

structure Viewable where
  ID : String
  URI : String
deriving DecidableEq

structure Tracking where
  Event : String
  Offset : Option VastSpec.Offset
  URI : String
deriving DecidableEq

structure VideoClick where
  ID : String
  URI : String
deriving DecidableEq

structure VideoClicks where
  ClickThroughs : List VideoClick
  ClickTrackings : List VideoClick
  CustomClicks : List VideoClick
deriving DecidableEq

structure StaticResource where
  CreativeType : String
  URI : String
deriving DecidableEq

structure HTMLResource where
  XMLEncoded : Bool
  HTML : String
deriving DecidableEq

structure AdParameters where
  XMLEncoded : Bool
  Parameters : String
deriving DecidableEq

/-- Go's `encoding/xml` element name, used by the `Icons.XMLName` field. -/
structure XmlName where
  Space : String
  Local : String
deriving DecidableEq

structure Icon where
  Program : String
  Width : Int
  Height : Int
  XPosition : String
  YPosition : String
  Offset : VastSpec.Offset
  Duration : VastSpec.Duration
  APIFramework : String
  IconClickThrough : CDATAString
  IconClickTrackings : List CDATAString
  StaticResource : Option VastSpec.StaticResource
  IFrameResource : CDATAString
  HTMLResource : Option VastSpec.HTMLResource
deriving DecidableEq

structure Icons where
  XMLName : XmlName
  Icon : List VastSpec.Icon
deriving DecidableEq

structure MediaFile where
  ID : String
  Delivery : String
  «Type» : String
  Codec : String
  Bitrate : Int
  MinBitrate : Int
  MaxBitrate : Int
  Width : Int
  Height : Int
  Scalable : Bool
  MaintainAspectRatio : Bool
  APIFramework : String
  URI : String
deriving DecidableEq

structure Linear where
  SkipOffset : Option VastSpec.Offset
  Duration : VastSpec.Duration
  AdParameters : Option VastSpec.AdParameters
  Icons : Option VastSpec.Icons
  TrackingEvents : List Tracking
  VideoClicks : Option VastSpec.VideoClicks
  MediaFiles : List MediaFile
deriving DecidableEq

structure Companion where
  ID : String
  Width : Int
  Height : Int
  AssetWidth : Int
  AssetHeight : Int
  ExpandedWidth : Int
  ExpandeHeight : Int
  APIFramework : String
  AdSlotID : String
  CompanionClickThrough : CDATAString
  CompanionClickTracking : List CDATAString
  AltText : String
  TrackingEvents : List Tracking
  AdParameters : Option VastSpec.AdParameters
  StaticResource : Option VastSpec.StaticResource
  IFrameResource : CDATAString
  HTMLResource : Option VastSpec.HTMLResource
deriving DecidableEq

structure CompanionAds where
  Required : String
  Companions : List Companion
deriving DecidableEq

structure NonLinear where
  ID : String
  Width : Int
  Height : Int
  ExpandedWidth : Int
  ExpandeHeight : Int
  Scalable : Bool
  MaintainAspectRatio : Bool
  MinSuggestedDuration : Option VastSpec.Duration
  APIFramework : String
  NonLinearClickTracking : List CDATAString
  NonLinearClickThrough : CDATAString
  AdParameters : Option VastSpec.AdParameters
  StaticResource : Option VastSpec.StaticResource
  IFrameResource : CDATAString
  HTMLResource : Option VastSpec.HTMLResource
deriving DecidableEq

structure NonLinearAds where
  TrackingEvents : List Tracking
  NonLinears : List NonLinear
deriving DecidableEq

structure Creative where
  ID : String
  Sequence : Int
  AdID : String
  APIFramework : String
  Linear : Option VastSpec.Linear
  CompanionAds : Option VastSpec.CompanionAds
  NonLinearAds : Option VastSpec.NonLinearAds
deriving DecidableEq

structure AdSystem where
  Version : String
  Name : String
deriving DecidableEq

/-- A well-formed XML node: character data or an element with attributes
and children.  The `innerxml` capture of an element body is its list of
child nodes. -/
inductive XNode where
  | text (s : String)
  | elem (name : String) (attrs : List (String × String)) (children : List XNode)

structure Extension where
  «Type» : String
  Name : String
  CustomTracking : List Tracking
  Data : List XNode
  Attributes : List (String × String)

structure InLine where
  AdSystem : Option VastSpec.AdSystem
  AdTitle : CDATAString
  Impressions : List Impression
  ViewableImpression : List Viewable
  Creatives : List Creative
  Description : CDATAString
  Advertiser : String
  Survey : CDATAString
  Errors : List CDATAString
  Pricing : String
  Extensions : List Extension

structure LinearWrapper where
  Icons : Option VastSpec.Icons
  TrackingEvents : List Tracking
  VideoClicks : Option VastSpec.VideoClicks
deriving DecidableEq

structure CompanionWrapper where
  ID : String
  Width : Int
  Height : Int
  AssetWidth : Int
  AssetHeight : Int
  ExpandedWidth : Int
  ExpandeHeight : Int
  APIFramework : String
  AdSlotID : String
  CompanionClickThrough : CDATAString
  CompanionClickTracking : List CDATAString
  AltText : String
  TrackingEvents : List Tracking
  AdParameters : Option VastSpec.AdParameters
  StaticResource : Option VastSpec.StaticResource
  IFrameResource : CDATAString
  HTMLResource : Option VastSpec.HTMLResource
deriving DecidableEq

structure CompanionAdsWrapper where
  Required : String
  Companions : List CompanionWrapper
deriving DecidableEq

structure NonLinearWrapper where
  ID : String
  Width : Int
  Height : Int
  ExpandedWidth : Int
  ExpandeHeight : Int
  Scalable : Bool
  MaintainAspectRatio : Bool
  MinSuggestedDuration : Option VastSpec.Duration
  APIFramework : String
  TrackingEvents : List Tracking
  NonLinearClickTracking : List CDATAString
deriving DecidableEq

structure NonLinearAdsWrapper where
  TrackingEvents : List Tracking
  NonLinears : List NonLinearWrapper
deriving DecidableEq

structure CreativeWrapper where
  ID : String
  Sequence : Int
  AdID : String
  Linear : Option LinearWrapper
  CompanionAds : Option CompanionAdsWrapper
  NonLinearAds : Option NonLinearAdsWrapper
deriving DecidableEq

structure Wrapper where
  AdSystem : Option VastSpec.AdSystem
  VASTAdTagURI : CDATAString
  Impressions : List Impression
  ViewableImpression : List Viewable
  Errors : List CDATAString
  Creatives : List CreativeWrapper
  Extensions : List Extension
  FallbackOnNoAd : Option Bool
  AllowMultipleAds : Option Bool
  FollowAdditionalWrappers : Option Bool

structure Ad where
  ID : String
  Sequence : Int
  InLine : Option VastSpec.InLine
  Wrapper : Option VastSpec.Wrapper

structure VAST where
  Version : String
  Ads : List Ad
  Errors : List CDATAString

/-! ## Go slice idioms

`out := s[:0]` followed by `out = append(out, x)` while ranging over `s`
shares `s`'s backing array: the `j`-th append overwrites `s[j]`, so a read
of `s[i]` observes the `i`-th appended value once at least `i + 1` appends
have happened, and the original element otherwise.  `goRangeAppend` models
one `for … range s` loop under this aliasing; the loop body `step` receives
the value read and returns the updated appended sequence. -/

def goRangeAppend (step : List α → α → List α) (orig : List α) :
    List Nat → List α → List α
  | [], out => out
  | i :: is, out =>
    match (if i < out.length then out[i]? else orig[i]?) with
    | some m => goRangeAppend step orig is (step out m)
    | none => goRangeAppend step orig is out

/-- A single `for … range s` pass of the filter idiom, appending `f m` for
every element `m` with `p m`. -/
def goFilterSlice (p : α → Bool) (f : α → α) (orig : List α) : List α :=
  goRangeAppend (fun out m => if p m then out ++ [f m] else out) orig
    (List.range orig.length) []

/-- Outcome of a Go method that may panic at runtime. -/
inductive GoResult (α : Type) where
  | panics
  | fails (msg : String)
  | succeeds (val : α)

/-! ## `SetSecure` (URL-scheme normalization) -/

def Creative.SetSecure (creative : Creative) (secure : Bool) : Creative :=
  match creative.Linear with
  | some lin =>
    { creative with
      Linear := some
        { lin with
          TrackingEvents :=
            lin.TrackingEvents.map fun t => { t with URI := SecureUrl t.URI secure }
          VideoClicks :=
            match lin.VideoClicks with
            | some vc => some
                { vc with
                  ClickTrackings :=
                    vc.ClickTrackings.map fun c => { c with URI := SecureUrl c.URI secure }
                  ClickThroughs :=
                    vc.ClickThroughs.map fun c => { c with URI := SecureUrl c.URI secure } }
            | none => none
          MediaFiles :=
            lin.MediaFiles.map fun m => { m with URI := SecureUrl m.URI secure } } }
  | none =>
    match creative.NonLinearAds with
    | some nl =>
      { creative with
        NonLinearAds := some
          { nl with
            TrackingEvents :=
              nl.TrackingEvents.map fun t => { t with URI := SecureUrl t.URI secure } } }
    | none => creative

def InLine.SetSecure (inline : InLine) (secure : Bool) : InLine :=
  { inline with
    Creatives := inline.Creatives.map fun c => c.SetSecure secure
    ViewableImpression :=
      inline.ViewableImpression.map fun i => { i with URI := SecureUrl i.URI secure }
    Impressions :=
      inline.Impressions.map fun i => { i with URI := SecureUrl i.URI secure }
    Errors := inline.Errors.map fun e => { e with CDATA := SecureUrl e.CDATA secure } }

/-- The Wrapper branch of the Go source is commented out
(`//ad.Wrapper.SetSecure(secure)`), so wrapper ads are left untouched. -/
def Ad.SetSecure (ad : Ad) (secure : Bool) : Ad :=
  match ad.Wrapper with
  | some _ => ad
  | none =>
    match ad.InLine with
    | some il => { ad with InLine := some (il.SetSecure secure) }
    | none => ad

def VAST.SetSecure (v : VAST) (secure : Bool) : VAST :=
  { v with
    Errors := v.Errors.map fun e => { e with CDATA := SecureUrl e.CDATA secure }
    Ads := v.Ads.map fun ad => ad.SetSecure secure }

/-! ## Validation -/

def MediaFile.Validate (media : MediaFile) : Except String Unit :=
  if media.URI = "" then .error "empty uri"
  else if media.«Type» = "" then .error "empty type"
  else if media.Width = 0 then .error "empty width"
  else if media.Height = 0 then .error "empty height"
  else .ok ()

def Tracking.Validate (track : Tracking) : Except String Unit :=
  if track.Event = "" then .error "empty event" else .ok ()

def NonLinearAds.Validate (nonlinear : NonLinearAds) : Except String NonLinearAds :=
  .ok nonlinear

def VideoClicks.Validate (click : VideoClicks) : Except String VideoClicks :=
  let fct := goFilterSlice (fun c => c.URI != "") id click.ClickThroughs
  let ct := if fct.length = 0 then [] else fct
  let ftr := goFilterSlice (fun c => c.URI != "") id click.ClickTrackings
  let tr := if ftr.length = 0 then [] else ftr
  let fcc := goFilterSlice (fun c => c.URI != "") id click.CustomClicks
  let cc := if fcc.length = 0 then [] else fcc
  .ok { click with ClickThroughs := ct, ClickTrackings := tr, CustomClicks := cc }

/-- First-failure validation of a list, wrapping the failing index as
`fmt.Errorf("%s[%d] %s", tag, i, err)` does. -/
def firstErr (f : α → Except String Unit) (tag : String) :
    List α → Nat → Except String Unit
  | [], _ => .ok ()
  | x :: xs, i =>
    match f x with
    | .error msg => .error (tag ++ "[" ++ toString i ++ "] " ++ msg)
    | .ok _ => firstErr f tag xs (i + 1)

def Linear.Validate (linear : Linear) : Except String Linear :=
  if linear.MediaFiles.length = 0 then .error "empty media"
  else
    match firstErr MediaFile.Validate "bad media" linear.MediaFiles 0 with
    | .error e => .error e
    | .ok _ =>
      let filteredTracks := goFilterSlice (fun t => t.URI != "") id linear.TrackingEvents
      match firstErr Tracking.Validate "bad track" filteredTracks 0 with
      | .error e => .error e
      | .ok _ =>
        match linear.VideoClicks with
        | some vc =>
          match vc.Validate with
          | .error e => .error e
          | .ok vc2 =>
            .ok { linear with TrackingEvents := filteredTracks, VideoClicks := some vc2 }
        | none => .ok { linear with TrackingEvents := filteredTracks }

def Creative.Validate (creative : Creative) : Except String Creative :=
  match creative.Linear with
  | some lin =>
    match lin.Validate with
    | .error e => .error e
    | .ok lin2 => .ok { creative with Linear := some lin2 }
  | none =>
    match creative.NonLinearAds with
    | some nl =>
      match nl.Validate with
      | .error e => .error e
      | .ok nl2 => .ok { creative with NonLinearAds := some nl2 }
    | none => .error "empty linear/nonlinear"

def validateCreatives : List Creative → Nat → Except String (List Creative)
  | [], _ => .ok []
  | c :: cs, i =>
    match c.Validate with
    | .error msg => .error ("bad creative[" ++ toString i ++ "] " ++ msg)
    | .ok c2 =>
      match validateCreatives cs (i + 1) with
      | .error e => .error e
      | .ok cs2 => .ok (c2 :: cs2)

def InLine.Validate (inline : InLine) : Except String InLine :=
  if inline.Creatives.length = 0 then .error "empty creative"
  else
    match validateCreatives inline.Creatives 0 with
    | .error e => .error e
    | .ok creatives2 =>
      .ok { inline with
        Creatives := creatives2
        Impressions :=
          goFilterSlice (fun imp => imp.URI != "")
            (fun imp => { imp with URI := TrimSpace imp.URI }) inline.Impressions
        Errors := goFilterSlice (fun e => e.CDATA != "") id inline.Errors
        ViewableImpression :=
          goFilterSlice (fun imp => imp.URI != "")
            (fun imp => { imp with URI := TrimSpace imp.URI })
            inline.ViewableImpression }

def Wrapper.Validate (wrap : Wrapper) : Except String Wrapper :=
  .ok { wrap with
    Impressions := goFilterSlice (fun imp => imp.URI != "") id wrap.Impressions
    ViewableImpression :=
      goFilterSlice (fun imp => imp.URI != "") id wrap.ViewableImpression }

def Ad.Validate (ad : Ad) : Except String Ad :=
  match ad.Wrapper with
  | some w =>
    match w.Validate with
    | .error e => .error e
    | .ok w2 => .ok { ad with Wrapper := some w2 }
  | none =>
    match ad.InLine with
    | some il =>
      match il.Validate with
      | .error e => .error e
      | .ok il2 => .ok { ad with InLine := some il2 }
    | none => .error "empty inline and wrapper"

def validateAds : List Ad → Nat → Except String (List Ad)
  | [], _ => .ok []
  | ad :: ads, i =>
    match ad.Validate with
    | .error msg => .error ("bad ad[" ++ toString i ++ "] " ++ msg)
    | .ok ad2 =>
      match validateAds ads (i + 1) with
      | .error e => .error e
      | .ok ads2 => .ok (ad2 :: ads2)

def VAST.Validate (v : VAST) : Except String VAST :=
  if v.Ads.length = 0 then .error "empty ads"
  else
    match validateAds v.Ads 0 with
    | .error e => .error e
    | .ok ads2 => .ok { v with Ads := ads2 }

/-! ## Media filters -/

/-- The in-place nested assignment
`v.Ads[0].InLine.Creatives[0].Linear.MediaFiles = media` (identity when
the path does not exist; the filters below only use it after guarding the
same path). -/
def VAST.setFirstMediaFiles (v : VAST) (media : List MediaFile) : VAST :=
  match v.Ads with
  | [] => v
  | ad :: rest =>
    match ad.InLine with
    | none => v
    | some il =>
      match il.Creatives with
      | [] => v
      | c :: cs =>
        match c.Linear with
        | none => v
        | some lin =>
          { v with
            Ads :=
              { ad with
                InLine := some
                  { il with
                    Creatives :=
                      { c with Linear := some { lin with MediaFiles := media } } :: cs } }
                :: rest }

/-- `VAST.FilterFormat`.  `panics` records the unguarded `Ads[0]`,
`Creatives[0]` and `.Linear` accesses of the source.  The nested loops
append into the backing array of the list they are still ranging over,
which `goRangeAppend` reproduces. -/
def VAST.FilterFormat (v : VAST) (format : List String) : GoResult VAST :=
  match v.Ads with
  | [] => .panics
  | ad :: _ =>
    match ad.InLine with
    | none => .fails "not inline"
    | some il =>
      match il.Creatives with
      | [] => .panics
      | c :: _ =>
        match c.Linear with
        | none => .panics
        | some lin =>
          let orig := lin.MediaFiles
          let media := format.foldl
            (fun out f =>
              goRangeAppend (fun out m => if m.«Type» == f then out ++ [m] else out)
                orig (List.range orig.length) out)
            []
          if media.length = 0 then .fails "empty media by format"
          else .succeeds (v.setFirstMediaFiles media)

/-- The Go comparison `math.Abs(q1*100/q - 100.0)` with
`q1 = float64(m.Width*m.Height)` and `q = float64(w*h)`, modelled exactly
over `ℚ`. -/
def devQ (w h : Int) (m : MediaFile) : ℚ :=
  |((m.Width * m.Height : Int) : ℚ) * 100 / ((w * h : Int) : ℚ) - 100|

/-- `VAST.FilterSize`.  The orientation pass is the same aliasing filter
idiom (its two `if`s are mutually exclusive); the selection pass keeps the
running best under a strict `<` comparison, then overwrites the winner's
declared dimensions. -/
def VAST.FilterSize (v : VAST) (w h : Int) : GoResult VAST :=
  match v.Ads with
  | [] => .panics
  | ad :: _ =>
    match ad.InLine with
    | none => .fails "not inline"
    | some il =>
      match il.Creatives with
      | [] => .panics
      | c :: _ =>
        match c.Linear with
        | none => .panics
        | some lin =>
          let orig := lin.MediaFiles
          let media := goRangeAppend
            (fun out m =>
              let out1 :=
                if w - h > 0 ∧ m.Width - m.Height > 0 then out ++ [m] else out
              if w - h < 0 ∧ m.Width - m.Height < 0 then out1 ++ [m] else out1)
            orig (List.range orig.length) []
          match media with
          | [] => .fails "empty media by size"
          | b0 :: _ =>
            let best := media.foldl
              (fun best m => if devQ w h m < devQ w h best then m else best) b0
            .succeeds (v.setFirstMediaFiles [{ best with Width := w, Height := h }])

/-! ## Extension codec

`Extension.MarshalXML` picks one of two wire shapes: with non-empty
`CustomTracking` it encodes the middleware `extension` value (a
`CustomTracking>Tracking` element list, no data); otherwise it encodes
`extensionNoCT` whose `Data` bytes are written verbatim as inner XML.
`Extension.UnmarshalXML` decodes into the middleware `extension` shape and
copies fields over. -/

def lookupAttr (attrs : List (String × String)) (k : String) : Option String :=
  match attrs with
  | [] => none
  | (a, v) :: rest => if a == k then some v else lookupAttr rest k

/-- Go map assignment `m[k] = v` on the association-list model of a map. -/
def mapSet (m : List (String × String)) (k v : String) : List (String × String) :=
  match m with
  | [] => [(k, v)]
  | (a, b) :: rest => if a == k then (k, v) :: rest else (a, b) :: mapSet rest k v

/-- The wire form of one `Tracking` value: `event` attribute (always
written), optional `offset` attribute, URI as character data (omitted when
empty). -/
def nodeOfTracking (t : Tracking) : XNode :=
  .elem "Tracking"
    ([("event", t.Event)] ++
      (match t.Offset with
       | some o => [("offset", o.raw)]
       | none => []))
    (if t.URI = "" then [] else [.text t.URI])

/-- Concatenated character data directly inside an element (Go `,cdata`
field decoding). -/
def textContent (children : List XNode) : String :=
  children.foldl
    (fun acc n =>
      match n with
      | .text s => acc ++ s
      | .elem _ _ _ => acc)
    ""

/-- Decoding one child node as a `Tracking` element. -/
def trackingOfNode : XNode → Option Tracking
  | .elem "Tracking" attrs children =>
    some
      { Event := (lookupAttr attrs "event").getD ""
        Offset := (lookupAttr attrs "offset").map Offset.mk
        URI := textContent children }
  | _ => none

/-- The `CustomTracking>Tracking` collection: every `Tracking` element
below every `CustomTracking` child, in document order. -/
def collectCustomTracking (inner : List XNode) : List Tracking :=
  (inner.map fun n =>
    match n with
    | .elem "CustomTracking" _ children => children.filterMap trackingOfNode
    | _ => []).flatten

def Extension.marshalInner (e : Extension) : List XNode :=
  if e.CustomTracking.length > 0 then
    [.elem "CustomTracking" [] (e.CustomTracking.map nodeOfTracking)]
  else
    e.Data

def Extension.marshalAttrs (e : Extension) : List (String × String) :=
  e.Attributes ++
    (if e.«Type» ≠ "" then [("type", e.«Type»)] else []) ++
    (if e.Name ≠ "" then [("name", e.Name)] else [])

/-- `Extension.UnmarshalXML` on receiver `e`: decode the middleware value
from the start element's attributes and the element body, copy
type/name/customTracking, copy data only when customTracking is empty.
The final attribute loop of the source ranges over `e.Attributes` (the
receiver's own map), re-assigning each non-reserved entry to itself. -/
def Extension.unmarshalXML (e : Extension) (attrs : List (String × String))
    (inner : List XNode) : Extension :=
  let ct := collectCustomTracking inner
  { «Type» := (lookupAttr attrs "type").getD ""
    Name := (lookupAttr attrs "name").getD ""
    CustomTracking := ct
    Data := if ct.length = 0 then inner else e.Data
    Attributes :=
      if attrs.length > 0 then
        e.Attributes.foldl
          (fun acc kv =>
            if kv.1 ≠ "name" ∧ kv.1 ≠ "type" then mapSet acc kv.1 kv.2 else acc)
          e.Attributes
      else e.Attributes }

/-- The zero `Extension` value that a fresh decode writes into. -/
def zeroExtension : Extension :=
  { «Type» := "", Name := "", CustomTracking := [], Data := [], Attributes := [] }

/-- Encode, then decode into a fresh Extension. -/
def Extension.roundtrip (e : Extension) : Extension :=
  zeroExtension.unmarshalXML e.marshalAttrs e.marshalInner

theorem trackingOfNode_nodeOfTracking (t : Tracking) :
    trackingOfNode (nodeOfTracking t) = some t := by
  rcases t with ⟨ev, off, uri⟩
  cases off with
  | none =>
    by_cases h : uri = "" <;>
      simp [nodeOfTracking, trackingOfNode, lookupAttr, textContent, h]
  | some o =>
    by_cases h : uri = "" <;>
      simp [nodeOfTracking, trackingOfNode, lookupAttr, textContent, h]

theorem collectCustomTracking_marshal (ct : List Tracking) :
    collectCustomTracking [XNode.elem "CustomTracking" [] (ct.map nodeOfTracking)]
      = ct := by
  have : ∀ ts : List Tracking,
      (ts.map nodeOfTracking).filterMap trackingOfNode = ts := by
    intro ts
    induction ts with
    | nil => rfl
    | cons t ts2 ih =>
      simp only [List.map_cons, List.filterMap_cons, trackingOfNode_nodeOfTracking]
      rw [ih]
  simp [collectCustomTracking, this ct]

/-! ## The single-pass filter idiom reads only unoverwritten elements -/

theorem goRangeAppend_cons (step : List α → α → List α) (orig : List α)
    (i : Nat) (is : List Nat) (out : List α) :
    goRangeAppend step orig (i :: is) out =
      match (if i < out.length then out[i]? else orig[i]?) with
      | some m => goRangeAppend step orig is (step out m)
      | none => goRangeAppend step orig is out := rfl

/-- As long as the number of appended elements stays at or below the next
read index — true for any single pass whose step appends at most one
element per visited element — the loop behaves as if there were no
aliasing: it appends `g m` for every element `m` of the unmodified
suffix. -/
theorem goRangeAppend_spec (step : List α → α → List α) (g : α → List α)
    (hstep : ∀ out m, step out m = out ++ g m)
    (hg : ∀ m, (g m).length ≤ 1) (orig : List α) :
    ∀ (n k : Nat) (out : List α), k + n = orig.length → out.length ≤ k →
      goRangeAppend step orig (List.range' k n) out
        = out ++ ((orig.drop k).map g).flatten := by
  intro n
  induction n with
  | zero =>
    intro k out hk _
    have hdrop : orig.drop k = [] := by
      apply List.drop_eq_nil_of_le
      omega
    simp [goRangeAppend, hdrop]
  | succ n ih =>
    intro k out hk hout
    have hklt : k < orig.length := by omega
    rw [List.range'_succ k n 1, goRangeAppend_cons,
      if_neg (by omega : ¬k < out.length), List.getElem?_eq_getElem hklt]
    simp only [hstep]
    have hlen : (out ++ g orig[k]).length ≤ k + 1 := by
      have := hg orig[k]
      simp only [List.length_append]
      omega
    rw [ih (k + 1) _ (by omega) hlen, List.drop_eq_getElem_cons hklt]
    simp only [List.map_cons, List.flatten_cons, List.append_assoc]

theorem flatten_map_ite (p : α → Bool) (f : α → α) :
    ∀ l : List α,
      ((l.map fun m => if p m then [f m] else []).flatten) = (l.filter p).map f := by
  intro l
  induction l with
  | nil => rfl
  | cons x xs ih => by_cases h : p x <;> simp [h, ih]

theorem goFilterSlice_eq (p : α → Bool) (f : α → α) (orig : List α) :
    goFilterSlice p f orig = (orig.filter p).map f := by
  have hstep : ∀ (out : List α) (m : α),
      (if p m then out ++ [f m] else out) = out ++ (if p m then [f m] else []) := by
    intro out m
    by_cases h : p m <;> simp [h]
  have hg : ∀ m : α, (if p m then [f m] else []).length ≤ 1 := by
    intro m
    by_cases h : p m <;> simp [h]
  have hmain := goRangeAppend_spec _ _ hstep hg orig orig.length 0 []
    (by omega) (by simp)
  simp only [goFilterSlice, List.range_eq_range' orig.length]
  rw [hmain, List.drop_zero, flatten_map_ite]
  simp

/-! ## `FilterSize` helper lemmas -/

/-- Orientation compatibility as a predicate: the two `if`s of the source's
filter loop, which are mutually exclusive. -/
def sizeKeep (w h : Int) (m : MediaFile) : Bool :=
  decide ((w - h > 0 ∧ m.Width - m.Height > 0) ∨ (w - h < 0 ∧ m.Width - m.Height < 0))

theorem sizePass_eq_filter (w h : Int) (orig : List MediaFile) :
    goRangeAppend
      (fun out m =>
        let out1 := if w - h > 0 ∧ m.Width - m.Height > 0 then out ++ [m] else out
        if w - h < 0 ∧ m.Width - m.Height < 0 then out1 ++ [m] else out1)
      orig (List.range orig.length) []
      = orig.filter (sizeKeep w h) := by
  have hstep : ∀ (out : List MediaFile) (m : MediaFile),
      (let out1 := if w - h > 0 ∧ m.Width - m.Height > 0 then out ++ [m] else out
       if w - h < 0 ∧ m.Width - m.Height < 0 then out1 ++ [m] else out1)
        = out ++
          (if (w - h > 0 ∧ m.Width - m.Height > 0) ∨
              (w - h < 0 ∧ m.Width - m.Height < 0) then [m] else []) := by
    intro out m
    split_ifs <;> first | rfl | (exfalso; omega) | simp
  have hg : ∀ m : MediaFile,
      (if (w - h > 0 ∧ m.Width - m.Height > 0) ∨
          (w - h < 0 ∧ m.Width - m.Height < 0) then [m] else []).length ≤ 1 := by
    intro m
    split_ifs <;> simp
  have hmain := goRangeAppend_spec _ _ hstep hg orig orig.length 0 []
    (by omega) (by simp)
  have hconv : ∀ l : List MediaFile,
      ((l.map fun m =>
        (if (w - h > 0 ∧ m.Width - m.Height > 0) ∨
            (w - h < 0 ∧ m.Width - m.Height < 0) then [m] else [])).flatten)
        = l.filter (sizeKeep w h) := by
    intro l
    induction l with
    | nil => rfl
    | cons x xs ih =>
      simp only [List.map_cons, List.flatten_cons, List.filter_cons]
      by_cases hx : (w - h > 0 ∧ x.Width - x.Height > 0) ∨
          (w - h < 0 ∧ x.Width - x.Height < 0)
      · have hk : sizeKeep w h x = true := decide_eq_true hx
        rw [if_pos hx, hk, ih]
        simp
      · have hk : sizeKeep w h x = false := decide_eq_false hx
        rw [if_neg hx, hk, ih]
        simp
  rw [List.range_eq_range' orig.length, hmain, List.drop_zero, hconv]
  simp

/-- The running-best fold with a strict `<` comparison returns the first
element attaining the minimum: everything strictly before it is strictly
worse, everything after it is no better. -/
theorem foldl_min_decomp (dev : α → ℚ) :
    ∀ (l : List α) (b : α),
      ∃ l1 x l2, b :: l = l1 ++ x :: l2 ∧
        l.foldl (fun best m => if dev m < dev best then m else best) b = x ∧
        (∀ y ∈ l1, dev x < dev y) ∧ (∀ y ∈ l2, dev x ≤ dev y) := by
  intro l
  induction l with
  | nil =>
    intro b
    exact ⟨[], b, [], rfl, rfl, by simp, by simp⟩
  | cons m l2 ih =>
    intro b
    simp only [List.foldl_cons]
    by_cases hlt : dev m < dev b
    · rw [if_pos hlt]
      obtain ⟨l1, x, l2b, hdec, hfold, hl1, hl2⟩ := ih m
      refine ⟨b :: l1, x, l2b, by rw [List.cons_append, ← hdec], hfold, ?_, hl2⟩
      intro y hy
      rcases List.mem_cons.mp hy with rfl | hy2
      · have hxm : dev x ≤ dev m := by
          cases l1 with
          | nil =>
            have hmx : m = x := by
              have := hdec
              simp only [List.nil_append, List.cons.injEq] at this
              exact this.1
            rw [hmx]
          | cons a l1b =>
            have hma : m = a := by
              have := hdec
              simp only [List.cons_append, List.cons.injEq] at this
              exact this.1
            have hael : a ∈ a :: l1b := List.mem_cons_self a l1b
            have := hl1 a hael
            rw [hma]
            exact le_of_lt this
        exact lt_of_le_of_lt hxm hlt
      · exact hl1 y hy2
    · rw [if_neg hlt]
      obtain ⟨l1, x, l2b, hdec, hfold, hl1, hl2⟩ := ih b
      cases l1 with
      | nil =>
        have hbx : b = x ∧ l2 = l2b := by
          have := hdec
          simp only [List.nil_append, List.cons.injEq] at this
          exact this
        refine ⟨[], x, m :: l2, by rw [hbx.1, List.nil_append], hfold, by simp, ?_⟩
        intro y hy
        rcases List.mem_cons.mp hy with rfl | hy2
        · rw [← hbx.1]
          exact le_of_not_lt hlt
        · exact hl2 y (by rw [hbx.2] at hy2; exact hy2)
      | cons a l1b =>
        have hba : b = a ∧ l2 = l1b ++ x :: l2b := by
          have := hdec
          simp only [List.cons_append, List.cons.injEq] at this
          exact this
        refine ⟨b :: m :: l1b, x, l2b, ?_, hfold, ?_, hl2⟩
        · rw [show (b :: m :: l1b) ++ x :: l2b = b :: m :: (l1b ++ x :: l2b) from rfl,
            ← hba.2]
        · intro y hy
          have hxb : dev x < dev b := by
            have hamem : a ∈ a :: l1b := List.mem_cons_self a l1b
            have := hl1 a hamem
            rw [hba.1]
            exact this
          rcases List.mem_cons.mp hy with rfl | hy2
          · exact hxb
          · rcases List.mem_cons.mp hy2 with rfl | hy3
            · exact lt_of_lt_of_le hxb (le_of_not_lt hlt)
            · exact hl1 y (List.mem_cons_of_mem a hy3)

/-! ## Validation helper lemmas -/

theorem firstErr_ok (f : α → Except String Unit) (tag : String) :
    ∀ (l : List α) (i : Nat), (∀ x ∈ l, f x = .ok ()) →
      firstErr f tag l i = .ok () := by
  intro l
  induction l with
  | nil => intro i _; rfl
  | cons x xs ih =>
    intro i h
    have hx := h x (List.mem_cons_self x xs)
    simp only [firstErr, hx]
    exact ih (i + 1) fun y hy => h y (List.mem_cons_of_mem x hy)

theorem linear_validate_ok (lin : Linear)
    (hne : lin.MediaFiles ≠ [])
    (hmedia : ∀ m ∈ lin.MediaFiles, m.Validate = .ok ())
    (htrack : ∀ t ∈ lin.TrackingEvents, t.URI ≠ "" → t.Event ≠ "") :
    ∃ lin2, lin.Validate = .ok lin2 := by
  have hlen : ¬(lin.MediaFiles.length = 0) := by
    cases hm : lin.MediaFiles with
    | nil => exact absurd hm hne
    | cons a l => simp [hm]
  have hfm := firstErr_ok MediaFile.Validate "bad media" lin.MediaFiles 0 hmedia
  have htrackok : ∀ t ∈ goFilterSlice (fun t => t.URI != "") id lin.TrackingEvents,
      t.Validate = .ok () := by
    rw [goFilterSlice_eq, List.map_id]
    intro t ht
    have hmem := List.mem_filter.mp ht
    have huri : t.URI ≠ "" := by simpa using hmem.2
    have hev := htrack t hmem.1 huri
    simp [Tracking.Validate, hev]
  have hft := firstErr_ok Tracking.Validate "bad track"
    (goFilterSlice (fun t => t.URI != "") id lin.TrackingEvents) 0 htrackok
  unfold Linear.Validate
  rw [if_neg hlen]
  simp only [hfm, hft]
  cases hvc : lin.VideoClicks with
  | none => exact ⟨_, rfl⟩
  | some vc => exact ⟨_, rfl⟩

theorem creative_validate_ok (c : Creative) (lin : Linear)
    (hlin : c.Linear = some lin)
    (hne : lin.MediaFiles ≠ [])
    (hmedia : ∀ m ∈ lin.MediaFiles, m.Validate = .ok ())
    (htrack : ∀ t ∈ lin.TrackingEvents, t.URI ≠ "" → t.Event ≠ "") :
    ∃ c2, c.Validate = .ok c2 := by
  obtain ⟨lin2, hl⟩ := linear_validate_ok lin hne hmedia htrack
  unfold Creative.Validate
  rw [hlin]
  simp only [hl]
  exact ⟨_, rfl⟩

theorem validateCreatives_ok :
    ∀ (creatives : List Creative) (i : Nat),
      (∀ c ∈ creatives, ∃ c2, c.Validate = .ok c2) →
      ∃ out, validateCreatives creatives i = .ok out := by
  intro creatives
  induction creatives with
  | nil => intro i _; exact ⟨[], rfl⟩
  | cons c cs ih =>
    intro i h
    obtain ⟨c2, hc⟩ := h c (List.mem_cons_self c cs)
    obtain ⟨out, hout⟩ := ih (i + 1) fun y hy => h y (List.mem_cons_of_mem c hy)
    refine ⟨c2 :: out, ?_⟩
    simp only [validateCreatives, hc, hout]

theorem inline_validate_ok (il : InLine)
    (hne : il.Creatives ≠ [])
    (hcs : ∀ c ∈ il.Creatives, ∃ c2, c.Validate = .ok c2) :
    ∃ il2, il.Validate = .ok il2 ∧
      il2.Impressions = (il.Impressions.filter (fun i => i.URI != "")).map
        (fun i => { i with URI := TrimSpace i.URI }) ∧
      il2.Errors = il.Errors.filter (fun e => e.CDATA != "") ∧
      il2.ViewableImpression = (il.ViewableImpression.filter (fun i => i.URI != "")).map
        (fun i => { i with URI := TrimSpace i.URI }) := by
  have hlen : ¬(il.Creatives.length = 0) := by
    cases hm : il.Creatives with
    | nil => exact absurd hm hne
    | cons a l => simp [hm]
  obtain ⟨out, hout⟩ := validateCreatives_ok il.Creatives 0 hcs
  unfold InLine.Validate
  rw [if_neg hlen]
  simp only [hout]
  refine ⟨_, rfl, ?_, ?_, ?_⟩ <;> simp only [goFilterSlice_eq, List.map_id]

/-- The expected effect of `Wrapper.Validate`: both URI lists filtered to
non-empty entries, nothing else changed, no trimming. -/
def wrapperFiltered (w : Wrapper) : Wrapper :=
  { w with
    Impressions := w.Impressions.filter (fun i => i.URI != "")
    ViewableImpression := w.ViewableImpression.filter (fun i => i.URI != "") }

theorem wrapper_validate_eq (w : Wrapper) :
    w.Validate = .ok (wrapperFiltered w) := by
  unfold Wrapper.Validate wrapperFiltered
  rw [goFilterSlice_eq, goFilterSlice_eq, List.map_id, List.map_id]

theorem validateAds_wrappers :
    ∀ (ads : List Ad) (i : Nat), (∀ ad ∈ ads, ad.Wrapper.isSome) →
      validateAds ads i = .ok
        (ads.map fun ad => { ad with Wrapper := ad.Wrapper.map wrapperFiltered }) := by
  intro ads
  induction ads with
  | nil => intro i _; rfl
  | cons ad ads2 ih =>
    intro i h
    obtain ⟨w, hw⟩ := Option.isSome_iff_exists.mp (h ad (List.mem_cons_self ad ads2))
    have hrec := ih (i + 1) fun y hy => h y (List.mem_cons_of_mem ad hy)
    simp only [validateAds, Ad.Validate, hw, wrapper_validate_eq, hrec, List.map_cons]
    rfl

theorem ad_validate_ok_inline (ad : Ad) (il : InLine)
    (hw : ad.Wrapper = none) (hil : ad.InLine = some il)
    (hok : ∃ il2, il.Validate = .ok il2) :
    ∃ ad2, ad.Validate = .ok ad2 := by
  obtain ⟨il2, h⟩ := hok
  simp only [Ad.Validate, hw, hil, h]
  exact ⟨_, rfl⟩

theorem validateAds_ok :
    ∀ (ads : List Ad) (i : Nat), (∀ ad ∈ ads, ∃ ad2, ad.Validate = .ok ad2) →
      ∃ out, validateAds ads i = .ok out := by
  intro ads
  induction ads with
  | nil => intro i _; exact ⟨[], rfl⟩
  | cons ad ads2 ih =>
    intro i h
    obtain ⟨ad2, ha⟩ := h ad (List.mem_cons_self ad ads2)
    obtain ⟨out, hout⟩ := ih (i + 1) fun y hy => h y (List.mem_cons_of_mem ad hy)
    refine ⟨ad2 :: out, ?_⟩
    simp only [validateAds, ha, hout]

/-- One pass of the filter idiom starting from the empty output equals a
plain `List.filter`. -/
theorem singlePass_filter (p : α → Bool) (orig : List α) :
    goRangeAppend (fun out m => if p m then out ++ [m] else out) orig
      (List.range orig.length) [] = orig.filter p := by
  have hstep : ∀ (out : List α) (m : α),
      (if p m then out ++ [m] else out) = out ++ (if p m then [m] else []) := by
    intro out m
    by_cases hm : p m <;> simp [hm]
  have hg : ∀ m : α, (if p m then [m] else []).length ≤ 1 := by
    intro m
    by_cases hm : p m <;> simp [hm]
  have hmain := goRangeAppend_spec _ _ hstep hg orig orig.length 0 []
    (by omega) (by simp)
  have hconv : ∀ l : List α, ((l.map fun m => if p m then [m] else []).flatten) = l.filter p := by
    intro l
    induction l with
    | nil => rfl
    | cons x xs ih => by_cases hx : p x <;> simp [hx, ih]
  rw [List.range_eq_range' orig.length, hmain, List.drop_zero, hconv]
  simp

/-! ## Concrete fixtures used by witnesses and counterexamples -/

def mfBase : MediaFile :=
  { ID := "", Delivery := "", «Type» := "", Codec := "", Bitrate := 0,
    MinBitrate := 0, MaxBitrate := 0, Width := 0, Height := 0, Scalable := false,
    MaintainAspectRatio := false, APIFramework := "", URI := "" }

def mfGood : MediaFile :=
  { mfBase with «Type» := "mp4", URI := "http://a/v.mp4", Width := 1920, Height := 1080 }

def linBase : Linear :=
  { SkipOffset := none, Duration := ⟨""⟩, AdParameters := none, Icons := none,
    TrackingEvents := [], VideoClicks := none, MediaFiles := [] }

def crBase : Creative :=
  { ID := "", Sequence := 0, AdID := "", APIFramework := "", Linear := none,
    CompanionAds := none, NonLinearAds := none }

def crGood : Creative :=
  { crBase with Linear := some { linBase with MediaFiles := [mfGood] } }

def ilBase : InLine :=
  { AdSystem := none, AdTitle := ⟨""⟩, Impressions := [], ViewableImpression := [],
    Creatives := [], Description := ⟨""⟩, Advertiser := "", Survey := ⟨""⟩,
    Errors := [], Pricing := "", Extensions := [] }

def adBase : Ad := { ID := "", Sequence := 0, InLine := none, Wrapper := none }

def wrapBase : Wrapper :=
  { AdSystem := none, VASTAdTagURI := ⟨""⟩, Impressions := [], ViewableImpression := [],
    Errors := [], Creatives := [], Extensions := [], FallbackOnNoAd := none,
    AllowMultipleAds := none, FollowAdditionalWrappers := none }

def docBase : VAST := { Version := "3.0", Ads := [], Errors := [] }

/-! ## Claim C4: `SecureUrl` scheme prefix and idempotence -/

/-- Claim C4 (amended).  For every input and flag, the output is the
requested scheme (`https://` for `secure`, `http://` otherwise) followed
by the scheme-free tail `urlTail`, so it always begins with the requested
scheme whatever prefix and letter case the input carried.  Re-applying
`SecureUrl` with the same flag is the identity whenever that tail contains
no occurrence of `"http:"`, `"https:"`, `"//"` or whitespace; the original
claim's unconditional idempotence is false (see the counterexample):
removing whitespace after prepending the scheme can manufacture a fresh
`"http:"` substring which the second application then deletes. -/
theorem c4_secureUrl_scheme_and_conditional_idempotence (u : String) (s : Bool) :
    (SecureUrl u s).data = (if s then httpsScheme else httpScheme) ++ urlTail u.data
    ∧ (hasSub httpPat (urlTail u.data) = false →
       hasSub httpsPat (urlTail u.data) = false →
       hasSub slashPat (urlTail u.data) = false →
       hasSub nlPat (urlTail u.data) = false →
       hasSub tabPat (urlTail u.data) = false →
       hasSub spacePat (urlTail u.data) = false →
       SecureUrl (SecureUrl u s) s = SecureUrl u s) :=
  ⟨SecureUrl_data u s,
   fun h1 h2 h3 h4 h5 h6 => SecureUrl_idem_of_clean_tail u s h1 h2 h3 h4 h5 h6⟩

/-- Claim C4 witness: the theorem applied at `"example.com/path"` with the
secure flag set; the tail-cleanliness hypotheses evaluate to `true`. -/
theorem c4_witness :
    (SecureUrl "example.com/path" true).data
      = (if true then httpsScheme else httpScheme) ++ urlTail "example.com/path".data
    ∧ SecureUrl (SecureUrl "example.com/path" true) true
      = SecureUrl "example.com/path" true :=
  ⟨(c4_secureUrl_scheme_and_conditional_idempotence "example.com/path" true).1,
   (c4_secureUrl_scheme_and_conditional_idempotence "example.com/path" true).2
     (by decide) (by decide) (by decide) (by decide) (by decide) (by decide)⟩

/-- Claim C4 counterexample: `SecureUrl` is not idempotent as claimed.
`SecureUrl "ht tp:x" true = "https://http:x"` — the final
whitespace-stripping glues `"ht tp:"` into `"http:"` after the scheme was
prepended — and a second application strips that scheme-like substring,
giving `"https://x"`. -/
theorem c4_counterexample :
    SecureUrl (SecureUrl "ht tp:x" true) true ≠ SecureUrl "ht tp:x" true ∧
    SecureUrl "ht tp:x" true = "https://http:x" ∧
    SecureUrl (SecureUrl "ht tp:x" true) true = "https://x" := by
  refine ⟨by decide, by decide, by decide⟩

/-! ## Claim C1: Extension encode/decode round-trip -/

/-- Claim C1 (amended).  Encoding an `Extension` and decoding the result
into a fresh value: with non-empty `CustomTracking` the decoded `Data` is
empty and the decoded `CustomTracking` equals the original list exactly;
with empty `CustomTracking` and a `Data` payload *that does not itself
contain `CustomTracking>Tracking` markup*, `Data` round-trips exactly and
the decoded `CustomTracking` is empty.  The original claim's second half
is false without that extra condition (see the counterexample): the
decoder parses `CustomTracking` elements out of whatever inner XML it is
given, and then refuses to copy `Data`. -/
theorem c1_extension_roundtrip (e : Extension) :
    (e.CustomTracking ≠ [] →
      e.roundtrip.Data = [] ∧ e.roundtrip.CustomTracking = e.CustomTracking)
    ∧ (e.CustomTracking = [] → collectCustomTracking e.Data = [] →
      e.roundtrip.Data = e.Data ∧ e.roundtrip.CustomTracking = []) := by
  constructor
  · intro hct
    have hlen : e.CustomTracking.length > 0 := by
      cases hc : e.CustomTracking with
      | nil => exact absurd hc hct
      | cons a l => simp
    have hinner : e.marshalInner
        = [XNode.elem "CustomTracking" [] (e.CustomTracking.map nodeOfTracking)] := by
      unfold Extension.marshalInner
      rw [if_pos hlen]
    have hct2 : collectCustomTracking e.marshalInner = e.CustomTracking := by
      rw [hinner, collectCustomTracking_marshal]
    have hlen2 : ¬((collectCustomTracking e.marshalInner).length = 0) := by
      rw [hct2]
      omega
    constructor
    · show (if (collectCustomTracking e.marshalInner).length = 0
          then e.marshalInner else zeroExtension.Data) = []
      rw [if_neg hlen2]
      rfl
    · show collectCustomTracking e.marshalInner = e.CustomTracking
      exact hct2
  · intro hct hdata
    have hlen : ¬(e.CustomTracking.length > 0) := by
      rw [hct]
      simp
    have hinner : e.marshalInner = e.Data := by
      unfold Extension.marshalInner
      rw [if_neg hlen]
    constructor
    · show (if (collectCustomTracking e.marshalInner).length = 0
          then e.marshalInner else zeroExtension.Data) = e.Data
      rw [hinner, hdata]
      simp
    · show collectCustomTracking e.marshalInner = []
      rw [hinner, hdata]

def c1TrackedExt : Extension :=
  { «Type» := "t", Name := "n",
    CustomTracking := [{ Event := "start", Offset := none, URI := "u" }],
    Data := [], Attributes := [] }

/-- Claim C1 witness: the theorem applied to a concrete Extension carrying
one custom tracker. -/
theorem c1_witness :
    c1TrackedExt.CustomTracking ≠ [] ∧
    (c1TrackedExt.roundtrip.Data = [] ∧
      c1TrackedExt.roundtrip.CustomTracking = c1TrackedExt.CustomTracking) :=
  ⟨by decide, (c1_extension_roundtrip c1TrackedExt).1 (by decide)⟩

def c1DataExt : Extension :=
  { «Type» := "", Name := "", CustomTracking := [],
    Data := [XNode.elem "CustomTracking" []
      [XNode.elem "Tracking" [("event", "start")] [XNode.text "u"]]],
    Attributes := [] }

/-- Claim C1 counterexample: an Extension with empty `CustomTracking` and
non-empty `Data` whose bytes happen to spell a `CustomTracking>Tracking`
element.  Decoding the encoded form parses those trackers, so the decoded
`CustomTracking` is *not* empty and the decoded `Data` is empty rather
than byte-for-byte equal to the original. -/
theorem c1_counterexample :
    c1DataExt.CustomTracking = [] ∧ c1DataExt.Data ≠ [] ∧
    c1DataExt.roundtrip.CustomTracking
      = [{ Event := "start", Offset := none, URI := "u" }] ∧
    c1DataExt.roundtrip.Data = [] := by
  refine ⟨rfl, ?_, rfl, rfl⟩
  intro h
  simp [c1DataExt] at h

/-! ## Claim C8: extra start-element attributes -/

def c8Attrs : List (String × String) := [("type", "t"), ("foo", "bar")]

/-- Claim C8 (code bug).  The source guards on `len(start.Attr) > 0` and
clearly intends to merge the start element's extra attributes into
`e.Attributes` (mirroring `MarshalXML`, which emits `e.Attributes` into
`start.Attr`), but the loop ranges over the receiver's own `e.Attributes`
map — empty on a fresh decode — and re-assigns each entry to itself, so
nothing is ever merged.  Decoding an element whose start attributes are
`type="t" foo="bar"` into a fresh Extension leaves `Attributes` empty even
though the non-reserved attribute `foo` is present. -/
theorem c8_attributes_never_merged :
    lookupAttr c8Attrs "foo" = some "bar" ∧
    (zeroExtension.unmarshalXML c8Attrs []).«Type» = "t" ∧
    (zeroExtension.unmarshalXML c8Attrs []).Attributes = [] :=
  ⟨rfl, rfl, rfl⟩

/-! ## Claim C10: Wrapper validation is unconditionally successful -/

/-- Claim C10.  `Wrapper.Validate` succeeds on every Wrapper — even one
with an empty `VASTAdTagURI` and no Creatives — returning it with exactly
the empty-URI Impressions and ViewableImpressions dropped (no trimming);
consequently a document with at least one Ad in which every Ad carries a
Wrapper always passes `VAST.Validate`, with that filtering as the only
side effect. -/
theorem c10_wrapper_validate_total (v : VAST)
    (h1 : v.Ads ≠ []) (h2 : ∀ ad ∈ v.Ads, ad.Wrapper.isSome) :
    (∀ w : Wrapper, w.Validate = .ok (wrapperFiltered w)) ∧
    v.Validate = .ok
      { v with Ads := v.Ads.map fun ad =>
          { ad with Wrapper := ad.Wrapper.map wrapperFiltered } } := by
  refine ⟨wrapper_validate_eq, ?_⟩
  have hlen : ¬(v.Ads.length = 0) := by
    cases hv : v.Ads with
    | nil => exact absurd hv h1
    | cons a l => simp
  unfold VAST.Validate
  rw [if_neg hlen, validateAds_wrappers v.Ads 0 h2]

def c10Wrap : Wrapper :=
  { wrapBase with Impressions := [⟨"", ""⟩, ⟨"i", "u"⟩] }

def c10Doc : VAST :=
  { docBase with Ads := [{ adBase with Wrapper := some c10Wrap }] }

/-- Claim C10 witness: a document whose single Ad is an empty Wrapper with
one empty-URI impression validates, dropping only that impression. -/
theorem c10_witness :
    c10Doc.Validate = .ok
      { c10Doc with Ads := c10Doc.Ads.map fun ad =>
          { ad with Wrapper := ad.Wrapper.map wrapperFiltered } } :=
  (c10_wrapper_validate_total c10Doc (by simp [c10Doc, docBase])
    (by
      intro ad had
      simp only [c10Doc, docBase] at had
      rw [List.mem_singleton] at had
      subst had
      rfl)).2

/-! ## Claim C3: documents with valid media validate -/

/-- Claim C3 (amended).  `VAST.Validate` succeeds when *every* Ad has an
InLine (and no Wrapper) whose Creatives list is non-empty, *every*
Creative has a Linear with at least one MediaFile, *all* of those
MediaFiles pass `MediaFile.Validate`, and every TrackingEvent with a
non-empty URI has a non-empty event name.  The original claim — at least
one Ad with at least one Creative carrying at least one valid MediaFile —
is false (see the counterexample): validation is conjunctive over all
Ads, all Creatives and all MediaFiles. -/
theorem c3_validate_ok (v : VAST)
    (h1 : v.Ads ≠ [])
    (h2 : ∀ ad ∈ v.Ads, ad.Wrapper = none ∧ ∃ il, ad.InLine = some il ∧
      il.Creatives ≠ [] ∧
      ∀ c ∈ il.Creatives, ∃ lin, c.Linear = some lin ∧
        lin.MediaFiles ≠ [] ∧
        (∀ m ∈ lin.MediaFiles, m.Validate = .ok ()) ∧
        (∀ t ∈ lin.TrackingEvents, t.URI ≠ "" → t.Event ≠ "")) :
    ∃ v2, v.Validate = .ok v2 := by
  have hlen : ¬(v.Ads.length = 0) := by
    cases hv : v.Ads with
    | nil => exact absurd hv h1
    | cons a l => simp
  have hads : ∀ ad ∈ v.Ads, ∃ ad2, ad.Validate = .ok ad2 := by
    intro ad had
    obtain ⟨hw, il, hil, hcne, hcs⟩ := h2 ad had
    refine ad_validate_ok_inline ad il hw hil ?_
    have hcs2 : ∀ c ∈ il.Creatives, ∃ c2, c.Validate = .ok c2 := by
      intro c hc
      obtain ⟨lin, hlin, hmne, hmed, htr⟩ := hcs c hc
      exact creative_validate_ok c lin hlin hmne hmed htr
    obtain ⟨il2, hval, _, _, _⟩ := inline_validate_ok il hcne hcs2
    exact ⟨il2, hval⟩
  obtain ⟨out, hout⟩ := validateAds_ok v.Ads 0 hads
  unfold VAST.Validate
  rw [if_neg hlen, hout]
  exact ⟨_, rfl⟩

def c3GoodDoc : VAST :=
  { docBase with Ads := [{ adBase with InLine := some { ilBase with Creatives := [crGood] } }] }

/-- Claim C3 witness: a one-Ad document whose single Creative has one
valid MediaFile validates. -/
theorem c3_witness : c3GoodDoc.Validate.toOption.isSome = true := by
  obtain ⟨v2, hv⟩ := c3_validate_ok c3GoodDoc (by simp [c3GoodDoc, docBase])
    (by
      intro ad had
      simp only [c3GoodDoc, docBase] at had
      rw [List.mem_singleton] at had
      subst had
      refine ⟨rfl, { ilBase with Creatives := [crGood] }, rfl, by simp, ?_⟩
      intro c hc
      rw [List.mem_singleton] at hc
      subst hc
      refine ⟨{ linBase with MediaFiles := [mfGood] }, rfl, by simp, ?_, by simp [linBase]⟩
      intro m hm
      rw [show ({ linBase with MediaFiles := [mfGood] } : Linear).MediaFiles
        = [mfGood] from rfl, List.mem_singleton] at hm
      subst hm
      rfl)
  rw [hv]
  rfl

def c3BadDoc : VAST :=
  { docBase with
    Ads := [{ adBase with InLine := some { ilBase with Creatives := [crGood, crBase] } }] }

/-- Claim C3 counterexample: a document whose first (and only) Ad's InLine
has a Creative with a valid MediaFile — satisfying the claim's
hypothesis — but also a second Creative with neither Linear nor
NonLinearAds, so `Validate` fails. -/
theorem c3_counterexample :
    crGood ∈ ({ ilBase with Creatives := [crGood, crBase] } : InLine).Creatives ∧
    mfGood.Validate = .ok () ∧
    c3BadDoc.Validate = .error "bad ad[0] bad creative[1] empty linear/nonlinear" := by
  refine ⟨by simp, rfl, rfl⟩

/-! ## Claim C7: InLine validation filters and trims -/

/-- Claim C7 (amended).  For an InLine whose Creatives are non-empty and
all validate, `InLine.Validate` succeeds; it removes from `Impressions`,
`Errors` and `ViewableImpression` exactly the entries whose URI/CDATA is
the empty string (emptiness judged before trimming), keeps survivors in
their original relative order, and trims surrounding whitespace from every
surviving *Impression* and *ViewableImpression* URI.  Contrary to the
original claim, surviving `Errors` entries are kept verbatim — the Errors
loop of the source has no `TrimSpace` call (see the counterexample). -/
theorem c7_inline_validate_filters (il : InLine)
    (h1 : il.Creatives ≠ [])
    (h2 : ∀ c ∈ il.Creatives, ∃ c2, c.Validate = .ok c2) :
    ∃ il2, il.Validate = .ok il2 ∧
      il2.Impressions = (il.Impressions.filter (fun i => i.URI != "")).map
        (fun i => { i with URI := TrimSpace i.URI }) ∧
      il2.Errors = il.Errors.filter (fun e => e.CDATA != "") ∧
      il2.ViewableImpression = (il.ViewableImpression.filter (fun i => i.URI != "")).map
        (fun i => { i with URI := TrimSpace i.URI }) :=
  inline_validate_ok il h1 h2

def c7Inline : InLine :=
  { ilBase with
    Creatives := [crGood]
    Impressions := [⟨"", " u "⟩, ⟨"", ""⟩]
    Errors := [⟨" e "⟩, ⟨""⟩]
    ViewableImpression := [⟨"", " v "⟩] }

/-- Claim C7 witness: the theorem applied to a concrete InLine; the
empty-URI impression and empty-CDATA error are dropped, the surviving
impression and viewable URIs are trimmed, the surviving error is not. -/
theorem c7_witness :
    (c7Inline.Validate.map fun il2 =>
      (il2.Impressions, il2.Errors, il2.ViewableImpression))
      = .ok ([⟨"", "u"⟩], [⟨" e "⟩], [⟨"", "v"⟩]) := by
  obtain ⟨il2, hval, himp, herr, hview⟩ :=
    c7_inline_validate_filters c7Inline (by simp [c7Inline])
      (by
        intro c hc
        rw [show c7Inline.Creatives = [crGood] from rfl, List.mem_singleton] at hc
        subst hc
        exact ⟨_, rfl⟩)
  rw [hval]
  simp only [Except.map]
  rw [himp, herr, hview]
  rfl

def c7CexInline : InLine :=
  { ilBase with Creatives := [crGood], Errors := [⟨" e "⟩] }

/-- Claim C7 counterexample: a surviving error entry `" e "` is kept with
its surrounding whitespace, while the claim as stated requires it to be
trimmed to `"e"`. -/
theorem c7_counterexample :
    (c7CexInline.Validate.map fun il2 => il2.Errors) = .ok [⟨" e "⟩] ∧
    TrimSpace " e " = "e" ∧
    (⟨" e "⟩ : CDATAString) ≠ ⟨"e"⟩ :=
  ⟨rfl, by decide, by decide⟩

/-! ## Claim C9: what `SetSecure` touches -/

/-- Claim C9 (amended).  `VAST.SetSecure` rewrites the document-level
Error URIs with `SecureUrl` and maps `Ad.SetSecure` over the Ads; but an
Ad carrying a Wrapper is returned completely unchanged — the Wrapper
branch of `Ad.SetSecure` is commented out in the source — so not even the
Wrapper's impression-level URIs are rewritten, and a fortiori every URI
inside a Wrapper's Creatives is left untouched.  The original claim's
assertion that Wrapper impression-level URIs are rewritten is false (see
the counterexample). -/
theorem c9_setSecure_wrapper_untouched (v : VAST) (s : Bool) :
    (v.SetSecure s).Errors
      = v.Errors.map (fun e => { e with CDATA := SecureUrl e.CDATA s }) ∧
    (v.SetSecure s).Ads = v.Ads.map (fun ad => ad.SetSecure s) ∧
    ∀ ad ∈ v.Ads, ad.Wrapper ≠ none → ad.SetSecure s = ad := by
  refine ⟨rfl, rfl, ?_⟩
  intro ad _ hw
  cases hww : ad.Wrapper with
  | none => exact absurd hww hw
  | some w => simp [Ad.SetSecure, hww]

def c9Wrap : Wrapper := { wrapBase with Impressions := [⟨"", "u"⟩] }

def c9WrapAd : Ad := { adBase with Wrapper := some c9Wrap }

def c9Doc : VAST := { docBase with Ads := [c9WrapAd], Errors := [⟨"err"⟩] }

/-- Claim C9 witness: the theorem applied to a one-Wrapper-Ad document
with one document-level error URI. -/
theorem c9_witness :
    (c9Doc.SetSecure true).Errors = [⟨SecureUrl "err" true⟩] ∧
    c9WrapAd.SetSecure true = c9WrapAd := by
  have h := c9_setSecure_wrapper_untouched c9Doc true
  refine ⟨?_, h.2.2 c9WrapAd (by simp [c9Doc, docBase]) (by simp [c9WrapAd, adBase])⟩
  rw [h.1]
  rfl

/-- Claim C9 counterexample: the Wrapper ad — impressions included — is
left byte-identical by `SetSecure`, whereas the claim requires its
impression-level URI `"u"` to be rewritten to `SecureUrl "u" true =
"https://u"`. -/
theorem c9_counterexample :
    (c9Doc.SetSecure true).Ads = [c9WrapAd] ∧
    SecureUrl "u" true = "https://u" ∧
    ("u" : String) ≠ "https://u" :=
  ⟨rfl, by decide, by decide⟩

/-! ## Claim C5: `FilterFormat` -/

/-- Claim C5 (amended).  For a document whose first Ad has an InLine with
a first Creative carrying a Linear, a *single-format* request retains
exactly the MediaFiles whose `Type` equals the requested format, in their
original relative order, and fails with `"empty media by format"` when
none matches.  The original claim's multi-format version is false (see
the counterexample): each format pass ranges over the same backing array
it is appending into, so earlier appends overwrite entries that a later
format pass still needs to read, dropping matching MediaFiles.  The
missing-Creative/missing-Linear documents panic (covered by C6). -/
theorem c5_filterFormat_single (v : VAST) (f : String)
    (ad : Ad) (rest : List Ad) (hads : v.Ads = ad :: rest)
    (il : InLine) (hil : ad.InLine = some il)
    (c : Creative) (cs : List Creative) (hcs : il.Creatives = c :: cs)
    (lin : Linear) (hlin : c.Linear = some lin) :
    (lin.MediaFiles.filter (fun m => m.«Type» == f) = [] →
      v.FilterFormat [f] = .fails "empty media by format") ∧
    (lin.MediaFiles.filter (fun m => m.«Type» == f) ≠ [] →
      v.FilterFormat [f] = .succeeds
        (v.setFirstMediaFiles (lin.MediaFiles.filter (fun m => m.«Type» == f)))) := by
  have hbody : v.FilterFormat [f]
      = (if (lin.MediaFiles.filter (fun m => m.«Type» == f)).length = 0
         then .fails "empty media by format"
         else .succeeds
           (v.setFirstMediaFiles (lin.MediaFiles.filter (fun m => m.«Type» == f)))) := by
    simp only [VAST.FilterFormat, hads, hil, hcs, hlin, List.foldl_cons, List.foldl_nil]
    rw [singlePass_filter (fun m => m.«Type» == f) lin.MediaFiles]
  constructor
  · intro hemp
    rw [hbody, hemp]
    rfl
  · intro hne
    have hl : ¬((lin.MediaFiles.filter (fun m => m.«Type» == f)).length = 0) := by
      cases hm : lin.MediaFiles.filter (fun m => m.«Type» == f) with
      | nil => exact absurd hm hne
      | cons a l => simp
    rw [hbody, if_neg hl]

def mfWebm : MediaFile := { mfBase with «Type» := "webm", URI := "w", Width := 1, Height := 1 }

def mfMp4 : MediaFile := { mfBase with «Type» := "mp4", URI := "m", Width := 1, Height := 1 }

def c5Lin : Linear := { linBase with MediaFiles := [mfWebm, mfMp4] }

def c5Cr : Creative := { crBase with Linear := some c5Lin }

def c5Il : InLine := { ilBase with Creatives := [c5Cr] }

def c5Ad : Ad := { adBase with InLine := some c5Il }

def c5Doc : VAST := { docBase with Ads := [c5Ad] }

/-- Claim C5 witness: the theorem applied to a document with `webm` and
`mp4` MediaFiles; `FilterFormat ["mp4"]` keeps exactly the `mp4` entry. -/
theorem c5_witness :
    c5Doc.FilterFormat ["mp4"] = .succeeds (c5Doc.setFirstMediaFiles [mfMp4]) :=
  (c5_filterFormat_single c5Doc "mp4" _ _ rfl _ rfl _ _ rfl _ rfl).2 (by decide)

/-- Claim C5 counterexample: with the two-format request
`["mp4", "webm"]` on MediaFiles `[webm, mp4]`, the matching `webm` entry
is dropped: the first pass appends the `mp4` entry into the shared backing
array at index 0, overwriting the `webm` entry before the second pass
reads it.  The claim requires both entries (each matches a requested
format) to be retained. -/
theorem c5_counterexample :
    mfWebm.«Type» ∈ ["mp4", "webm"] ∧
    c5Doc.FilterFormat ["mp4", "webm"] = .succeeds (c5Doc.setFirstMediaFiles [mfMp4]) ∧
    mfWebm ∉ [mfMp4] :=
  ⟨by decide, rfl, by decide⟩

/-! ## Claim C6: the filters' precondition behaviour -/

/-- Claim C6 (amended).  When the Ads list is non-empty and — if the first
Ad has an InLine — that InLine has a first Creative with a Linear,
`FilterFormat` and `FilterSize` either succeed or fail with one of their
named errors (`"not inline"` when the first Ad has no InLine).  The
original claim extended this to documents with zero Ads, zero Creatives
or a Creative without a Linear; those cases panic on the unguarded
`Ads[0]`, `Creatives[0]` and `.Linear` accesses (see the
counterexample). -/
theorem c6_filters_no_panic (v : VAST) (fs : List String) (w h : Int)
    (h1 : v.Ads ≠ [])
    (h2 : ∀ ad rest, v.Ads = ad :: rest → ∀ il, ad.InLine = some il →
      ∃ c cs, il.Creatives = c :: cs ∧ ∃ lin, c.Linear = some lin) :
    (v.FilterFormat fs = .fails "not inline" ∨
     v.FilterFormat fs = .fails "empty media by format" ∨
     ∃ v2, v.FilterFormat fs = .succeeds v2) ∧
    (v.FilterSize w h = .fails "not inline" ∨
     v.FilterSize w h = .fails "empty media by size" ∨
     ∃ v2, v.FilterSize w h = .succeeds v2) := by
  cases hads : v.Ads with
  | nil => exact absurd hads h1
  | cons ad rest =>
    cases hil : ad.InLine with
    | none =>
      constructor
      · left
        simp only [VAST.FilterFormat, hads, hil]
      · left
        simp only [VAST.FilterSize, hads, hil]
    | some il =>
      obtain ⟨c, cs, hcs, lin, hlin⟩ := h2 ad rest hads il hil
      constructor
      · simp only [VAST.FilterFormat, hads, hil, hcs, hlin]
        split
        · right; left; rfl
        · right; right; exact ⟨_, rfl⟩
      · simp only [VAST.FilterSize, hads, hil, hcs, hlin]
        split
        · right; left; rfl
        · right; right; exact ⟨_, rfl⟩

/-- Claim C6 witness: on a well-formed inline document neither filter
panics. -/
theorem c6_witness :
    c5Doc.FilterFormat ["mp4"] ≠ GoResult.panics ∧
    c5Doc.FilterSize 1920 1080 ≠ GoResult.panics := by
  have h := c6_filters_no_panic c5Doc ["mp4"] 1920 1080 (by simp [c5Doc, docBase])
    (by
      intro ad rest hads il hil
      rw [show c5Doc.Ads = [c5Ad] from rfl] at hads
      injection hads with ha hr
      subst ha
      rw [show c5Ad.InLine = some c5Il from rfl] at hil
      injection hil with hi
      subst hi
      exact ⟨c5Cr, [], rfl, c5Lin, rfl⟩)
  constructor
  · rcases h.1 with hh | hh | ⟨v2, hh⟩ <;> rw [hh] <;> intro hc <;>
      exact GoResult.noConfusion hc
  · rcases h.2 with hh | hh | ⟨v2, hh⟩ <;> rw [hh] <;> intro hc <;>
      exact GoResult.noConfusion hc

/-- Claim C6 counterexample: a document with zero Ads panics in both
filters (index out of range on `Ads[0]`) instead of returning a named
error. -/
theorem c6_counterexample :
    docBase.Ads = [] ∧
    docBase.FilterFormat ["mp4"] = .panics ∧
    docBase.FilterSize 1920 1080 = .panics :=
  ⟨rfl, rfl, rfl⟩

/-! ## Claim C2: `FilterSize` -/

/-- Claim C2 (amended).  For a document whose first Ad has an InLine with
a first Creative carrying a Linear: the candidates are exactly the
MediaFiles whose width-minus-height sign matches the sign of
`targetW - targetH` (square media or a square target match nothing); if no
candidate remains the call fails with `"empty media by size"`; otherwise
the Linear's MediaFiles are replaced by the single first candidate
attaining the minimal absolute percentage area deviation
(`devQ`, the `float64` computation modelled over `ℚ`), with its declared
`Width`/`Height` overwritten by the requested target.  The original
claim's quantification over all documents with an InLine is false: with
no Creative or no Linear the call panics (see the counterexample; C6
records the same defect). -/
theorem c2_filterSize_selection (v : VAST) (w h : Int)
    (ad : Ad) (rest : List Ad) (hads : v.Ads = ad :: rest)
    (il : InLine) (hil : ad.InLine = some il)
    (c : Creative) (cs : List Creative) (hcs : il.Creatives = c :: cs)
    (lin : Linear) (hlin : c.Linear = some lin) :
    (∀ m : MediaFile, sizeKeep w h m = true ↔
      ((w - h > 0 ∧ m.Width - m.Height > 0) ∨ (w - h < 0 ∧ m.Width - m.Height < 0))) ∧
    (lin.MediaFiles.filter (sizeKeep w h) = [] →
      v.FilterSize w h = .fails "empty media by size") ∧
    (∀ b0 bs, lin.MediaFiles.filter (sizeKeep w h) = b0 :: bs →
      ∃ best l1 l2,
        v.FilterSize w h
          = .succeeds (v.setFirstMediaFiles [{ best with Width := w, Height := h }]) ∧
        b0 :: bs = l1 ++ best :: l2 ∧
        (∀ y ∈ l1, devQ w h best < devQ w h y) ∧
        (∀ y ∈ l2, devQ w h best ≤ devQ w h y)) := by
  refine ⟨fun m => by simp [sizeKeep], ?_, ?_⟩
  · intro hemp
    simp only [VAST.FilterSize, hads, hil, hcs, hlin]
    rw [sizePass_eq_filter, hemp]
  · intro b0 bs hfil
    simp only [VAST.FilterSize, hads, hil, hcs, hlin]
    rw [sizePass_eq_filter, hfil]
    have hstep0 : (if devQ w h b0 < devQ w h b0 then b0 else b0) = b0 := by
      rw [if_neg (lt_irrefl _)]
    simp only [List.foldl_cons, hstep0]
    obtain ⟨l1, x, l2, hdec, hfold, hl1, hl2⟩ := foldl_min_decomp (devQ w h) bs b0
    refine ⟨x, l1, l2, ?_, hdec, hl1, hl2⟩
    rw [hfold]

def mfExact : MediaFile :=
  { mfBase with «Type» := "mp4", URI := "e", Width := 1920, Height := 1080 }

def mf720 : MediaFile :=
  { mfBase with «Type» := "mp4", URI := "s", Width := 1280, Height := 720 }

def mf1440 : MediaFile :=
  { mfBase with «Type» := "mp4", URI := "l", Width := 2560, Height := 1440 }

def c2Lin : Linear := { linBase with MediaFiles := [mfExact, mf720, mf1440] }

def c2Il : InLine := { ilBase with Creatives := [{ crBase with Linear := some c2Lin }] }

def c2Doc : VAST := { docBase with Ads := [{ adBase with InLine := some c2Il }] }

/-- Claim C2 witness: the theorem applied with a portrait target to
landscape-only media fails with the named error; and on the spec's
example — target 1920×1080 with candidate areas 2073600, 921600 and
3686400 — the exact-area candidate wins and its declared size is
overwritten with the target. -/
theorem c2_witness :
    c2Doc.FilterSize 1080 1920 = .fails "empty media by size" ∧
    c2Doc.FilterSize 1920 1080
      = .succeeds (c2Doc.setFirstMediaFiles [{ mfExact with Width := 1920, Height := 1080 }]) := by
  constructor
  · exact (c2_filterSize_selection c2Doc 1080 1920 _ _ rfl _ rfl _ _ rfl _ rfl).2.1
      (by decide)
  · obtain ⟨best, l1, l2, heq, hdec, hl1, hl2⟩ :=
      (c2_filterSize_selection c2Doc 1920 1080 _ _ rfl _ rfl _ _ rfl _ rfl).2.2
        mfExact [mf720, mf1440] (by decide)
    have hbest : best = mfExact := by
      cases l1 with
      | nil =>
        have hh := hdec
        simp only [List.nil_append, List.cons.injEq] at hh
        exact hh.1.symm
      | cons a l1b =>
        have hma : mfExact = a := by
          have hh := hdec
          simp only [List.cons_append, List.cons.injEq] at hh
          exact hh.1
        have hlt := hl1 a (List.mem_cons_self a l1b)
        rw [← hma] at hlt
        have hz : devQ 1920 1080 mfExact = 0 := by
          norm_num [devQ, mfExact, mfBase]
        have hnn : 0 ≤ devQ 1920 1080 best := by
          unfold devQ
          exact abs_nonneg _
        rw [hz] at hlt
        exact absurd hlt (not_lt.mpr hnn)
    rw [hbest] at heq
    exact heq

/-- Claim C2 counterexample: a document whose first Ad has an InLine — the
claim's only stated hypothesis — but no Creative: `FilterSize` panics on
`Creatives[0]` instead of filtering, failing or selecting. -/
theorem c2_counterexample :
    ({ adBase with InLine := some ilBase } : Ad).InLine ≠ none ∧
    ({ docBase with Ads := [{ adBase with InLine := some ilBase }] } : VAST).FilterSize 1920 1080
      = .panics :=
  ⟨by simp, rfl⟩

end VastSpec
